import Mathlib

/-
  Verification of the batch PDF-retrieval utility (repository `downloads`).

  The repository has two variants of the same `PDFDownloader` class:
  * the hardened variant in `src/downloader.js` (URL validation, safe
    filename generation with a timestamp+random uniqueness token, magic-byte
    validation, inter-batch delay), modelled below in namespace `Downloader`;
  * the baseline variant in `src/unnamed/part_000` (no URL validation, plain
    `.pdf`-extension filenames, a click-to-continue sequential mode),
    modelled below in namespace `Part0`.

  The effectful pipeline is embedded as pure functions producing an event
  trace (`Ev`): network requests, completed file writes, partial-file
  deletions, backoff / inter-batch delays, and waits for the external
  continuation signal.  The network is an explicit environment
  `Url → ServerBehavior`; `url.parse` is external to the repository, so a
  URL is modelled by its parsed form (`protocol`/`hostname`/`pathname`).
  `Date.now()` and `crypto.randomBytes(4)` are modelled by an explicit
  `Token` supply indexed by redirect hop.  Redirect recursion is unbounded
  in the source (spec §9), so the embedding carries a structural fuel
  parameter consumed only at redirect hops.
-/

namespace Downloads

/-- A file or response body: one `Nat` per octet. -/
abbrev Bytes := List Nat

/-- Equality on `Except` results is decidable when it is on both sides. -/
instance {ε α : Type} [DecidableEq ε] [DecidableEq α] : DecidableEq (Except ε α) := fun a b =>
  match a, b with
  | .ok x, .ok y => decidable_of_iff (x = y) (by simp)
  | .error x, .error y => decidable_of_iff (x = y) (by simp)
  | .ok _, .error _ => isFalse (by simp)
  | .error _, .ok _ => isFalse (by simp)

/-! ### Decimal and hexadecimal rendering (model of JS number→string and
`Buffer.toString('hex')`) -/

/-- The character for one decimal digit. -/
def digitChar : Nat → Char
  | 0 => '0'
  | 1 => '1'
  | 2 => '2'
  | 3 => '3'
  | 4 => '4'
  | 5 => '5'
  | 6 => '6'
  | 7 => '7'
  | 8 => '8'
  | 9 => '9'
  | _ => '*'

/-- Little-endian decimal digits, with structural fuel. -/
def digAux : Nat → Nat → List Nat
  | 0, _ => []
  | fuel + 1, n => if n = 0 then [] else n % 10 :: digAux fuel (n / 10)

/-- Little-endian decimal digits of `n`. -/
def natToDigitsLE (n : Nat) : List Nat := digAux n n

/-- Decimal string of a natural number (model of JS `${number}`). -/
def natToString (n : Nat) : String :=
  if n = 0 then "0" else String.mk ((natToDigitsLE n).reverse.map digitChar)

/-- Recombine little-endian decimal digits. -/
def fromDigitsLE (ds : List Nat) : Nat := ds.foldr (fun d acc => d + 10 * acc) 0

/-- The character for one lowercase hexadecimal digit. -/
def hexChar : Nat → Char
  | 0 => '0'
  | 1 => '1'
  | 2 => '2'
  | 3 => '3'
  | 4 => '4'
  | 5 => '5'
  | 6 => '6'
  | 7 => '7'
  | 8 => '8'
  | 9 => '9'
  | 10 => 'a'
  | 11 => 'b'
  | 12 => 'c'
  | 13 => 'd'
  | 14 => 'e'
  | 15 => 'f'
  | _ => '*'

/-- Two hex characters for one byte (model of `Buffer.toString('hex')`). -/
def byteToHex (b : Nat) : List Char := [hexChar (b / 16), hexChar (b % 16)]

/-- Hex rendering of a byte sequence. -/
def bytesToHex (bs : Bytes) : List Char := (bs.map byteToHex).flatten

/-! ### Filename handling -/

/-- Model of JS `s || fallback` for strings (empty string is falsy). -/
def jsStringOr (s fallback : String) : String := if s = "" then fallback else s

/-- Model of node `path.basename`: strip trailing slashes, then take the
segment after the last remaining slash. -/
def basename (p : String) : String :=
  String.mk (((p.data.reverse.dropWhile (fun c => c = '/')).takeWhile (fun c => c ≠ '/')).reverse)

/-- Characters replaced by `_` in `generateSafeFilename`
(src/downloader.js line 37). -/
def illegalFilenameChars : List Char := ['<', '>', ':', '"', '/', '\\', '|', '?', '*']

/-- Model of `originalName.replace(/[<>:"\/\\|?*]/g, '_')` (src/downloader.js line 37). -/
def sanitizeFilename (s : String) : String :=
  String.mk (s.data.map (fun c => if c ∈ illegalFilenameChars then '_' else c))

/-- JS `sanitized.substring(0, sanitized.lastIndexOf('.'))`
(src/downloader.js line 45); empty when there is no dot, matching the
clamped `substring(0, -1)`. -/
def dropFromLastDot (s : String) : String :=
  String.mk (((s.data.reverse.dropWhile (fun c => c ≠ '.')).drop 1).reverse)

/-- One draw of `Date.now()` and `crypto.randomBytes(4)`
(src/downloader.js lines 38-39). -/
structure Token where
  timestamp : Nat
  randomBytes : Bytes
deriving DecidableEq

/-- Function `generateSafeFilename` (src/downloader.js lines 36-47): sanitize the
name, then splice in `_${timestamp}_${random}` before a forced `.pdf`
extension. -/
def generateSafeFilename (originalName : String) (tok : Token) : String :=
  let sanitized := sanitizeFilename originalName
  let timestampStr := natToString tok.timestamp
  let randomStr := String.mk (bytesToHex tok.randomBytes)
  if sanitized.toLower.endsWith ".pdf" = false then
    sanitized ++ "_" ++ timestampStr ++ "_" ++ randomStr ++ ".pdf"
  else
    dropFromLastDot sanitized ++ "_" ++ timestampStr ++ "_" ++ randomStr ++ ".pdf"

/-! ### URLs, server environment, events -/

/-- The parsed form of a URL (`url.parse` is node runtime functionality;
the model works on its result: `protocol`, `hostname`, `pathname`). -/
structure Url where
  protocol : Option String
  hostname : Option String
  pathname : String
deriving DecidableEq

/-- One HTTP response as observed by the response callback. -/
structure Response where
  statusCode : Nat
  statusMessage : String
  location : Option Url
  contentType : Option String
  body : Bytes
  writeErr : Option String
deriving DecidableEq

/-- What the network does for one request: a response, a connection-level
request error, or expiry of the request timeout. -/
inductive ServerBehavior where
  | respond (r : Response)
  | connectionError (msg : String)
  | expire
deriving DecidableEq

/-- The error taxonomy of the fetch pipeline.  `redirectFuelExhausted` is a
model artifact marking exhaustion of the redirect fuel (the source recurses
unboundedly on redirects); theorems supply enough fuel to avoid it. -/
inductive DlError where
  | invalidUrl (u : Url)
  | unsupportedProtocol (p : String)
  | httpStatus (code : Nat) (msg : String)
  | requestError (msg : String)
  | timeoutError
  | writeError (msg : String)
  | redirectFuelExhausted
deriving DecidableEq

/-- Observable events of one run: issuing a network request, completing a
file write, deleting a partial file, a `delay(ms)` sleep, and a
`waitForUserClick` suspension. -/
inductive Ev where
  | netRequest (u : Url)
  | fileWrite (name : String) (body : Bytes)
  | fileDelete (name : String)
  | delayMs (ms : Nat)
  | waitClick
deriving DecidableEq

/-- The data carried by a resolved download in the hardened variant:
the resolved path, the bytes written, and the advisory validation flag. -/
structure Saved where
  filePath : String
  body : Bytes
  validated : Bool
deriving DecidableEq

/-- The `validatePDF` magic-byte check on bytes actually present: the first 4
bytes rendered via `toString('ascii')` (which masks each byte to 7 bits)
must be `%PDF` = `[37, 80, 68, 70]` (src/downloader.js lines 24-33). -/
def validatePDFBytes (bytes : Bytes) : Bool :=
  decide (((bytes.take 4).map (fun b => b % 128)) = [37, 80, 68, 70])

/-- Function `validatePDF` on a file that may fail to read: the `catch` branch
degrades a read failure (`none`) to `false` (src/downloader.js lines 29-32). -/
def validatePDF (file : Option Bytes) : Bool :=
  match file with
  | none => false
  | some bytes => validatePDFBytes bytes

namespace Downloader

/-- Filename derivation when no name is supplied
(src/downloader.js lines 70-74): `path.basename(parsedUrl.pathname) ||
'downloaded_file'`, then `split('?')[0]`. -/
def deriveFileName (u : Url) : String :=
  ((jsStringOr (basename u.pathname) "downloaded_file").splitOn "?").headI

/-- The effective name a `downloadPDF` call works with: the supplied one,
or the URL-derived one. -/
def derivedName (u : Url) (fileName : Option String) : String :=
  match fileName with
  | some n => n
  | none => deriveFileName u

/-- The non-redirect tail of the hardened `downloadPDF`'s response callback
(src/downloader.js lines 102-153): reject non-200 with the status; stream
the body to `safeFileName`; a stream error deletes the partial file and
rejects; on finish run `validatePDF` and resolve the path either way. -/
def finishResponse (fileUrl : Url) (safeFileName : String) (r : Response) :
    List Ev × Except DlError Saved :=
  if r.statusCode ≠ 200 then
    ([.netRequest fileUrl], .error (.httpStatus r.statusCode r.statusMessage))
  else
    match r.writeErr with
    | some msg =>
      ([.netRequest fileUrl, .fileWrite safeFileName r.body, .fileDelete safeFileName],
       .error (.writeError msg))
    | none =>
      ([.netRequest fileUrl, .fileWrite safeFileName r.body],
       .ok { filePath := safeFileName, body := r.body, validated := validatePDFBytes r.body })

/-- Function `downloadPDF` of the hardened variant (src/downloader.js lines 50-169):
validate the URL, derive and uniquify the filename, then issue the request;
follow 3xx+Location redirects by recursing with the same `fileName`
(consuming one fuel and shifting the token supply); otherwise finish the
response. -/
def downloadPDF (env : Url → ServerBehavior) (toks : Nat → Token) :
    Nat → Url → Option String → List Ev × Except DlError Saved
  | fuel, fileUrl, fileNameArg =>
    if fileUrl.protocol.isNone ∨ fileUrl.hostname.isNone then
      ([], .error (.invalidUrl fileUrl))
    else if fileUrl.protocol ≠ some "http:" ∧ fileUrl.protocol ≠ some "https:" then
      ([], .error (.unsupportedProtocol ((fileUrl.protocol).getD "")))
    else
      let fileName := derivedName fileUrl fileNameArg
      let safeFileName := generateSafeFilename fileName (toks 0)
      match env fileUrl with
      | .connectionError msg => ([.netRequest fileUrl], .error (.requestError msg))
      | .expire => ([.netRequest fileUrl], .error .timeoutError)
      | .respond r =>
        match r.location with
        | some loc =>
          if 300 ≤ r.statusCode ∧ r.statusCode < 400 then
            match fuel with
            | 0 => ([.netRequest fileUrl], .error .redirectFuelExhausted)
            | fuel' + 1 =>
              let res := downloadPDF env (fun n => toks (n + 1)) fuel' loc (some fileName)
              (.netRequest fileUrl :: res.1, res.2)
          else finishResponse fileUrl safeFileName r
        | none => finishResponse fileUrl safeFileName r

end Downloader

namespace Part0

/-- Model of `if (!fileName.toLowerCase().endsWith('.pdf')) fileName += '.pdf'`
(src/unnamed/part_000 lines 48-50). -/
def ensurePdfExt (s : String) : String :=
  if s.toLower.endsWith ".pdf" = false then s ++ ".pdf" else s

/-- The name a baseline `downloadPDF` call saves under
(src/unnamed/part_000 lines 43-50). -/
def resolvedName (u : Url) (fileName : Option String) : String :=
  ensurePdfExt (match fileName with
    | some n => n
    | none => jsStringOr (basename u.pathname) "downloaded_file")

/-- The non-redirect tail of the baseline `downloadPDF`'s response callback
(src/unnamed/part_000 lines 66-101): reject non-200, stream to `fileName`,
delete the partial file on a stream error, resolve the path on finish with
no content validation. -/
def finishResponse (fileUrl : Url) (fileName : String) (r : Response) :
    List Ev × Except DlError String :=
  if r.statusCode ≠ 200 then
    ([.netRequest fileUrl], .error (.httpStatus r.statusCode r.statusMessage))
  else
    match r.writeErr with
    | some msg =>
      ([.netRequest fileUrl, .fileWrite fileName r.body, .fileDelete fileName],
       .error (.writeError msg))
    | none =>
      ([.netRequest fileUrl, .fileWrite fileName r.body], .ok fileName)

/-- Function `downloadPDF` of the baseline variant (src/unnamed/part_000 lines
37-113): no URL validation (scheme handling is delegated to the node
`http`/`https` modules, whose own rejection is represented by the
environment's `connectionError`); derive the filename, force a `.pdf`
extension, follow redirects with the same name, otherwise finish the
response. -/
def downloadPDF (env : Url → ServerBehavior) :
    Nat → Url → Option String → List Ev × Except DlError String
  | fuel, fileUrl, fileNameArg =>
    let fileName := resolvedName fileUrl fileNameArg
    match env fileUrl with
    | .connectionError msg => ([.netRequest fileUrl], .error (.requestError msg))
    | .expire => ([.netRequest fileUrl], .error .timeoutError)
    | .respond r =>
      match r.location with
      | some loc =>
        if 300 ≤ r.statusCode ∧ r.statusCode < 400 then
          match fuel with
          | 0 => ([.netRequest fileUrl], .error .redirectFuelExhausted)
          | fuel' + 1 =>
            let res := downloadPDF env fuel' loc (some fileName)
            (.netRequest fileUrl :: res.1, res.2)
        else finishResponse fileUrl fileName r
      | none => finishResponse fileUrl fileName r

end Part0

/-! ### Retry policy

Both variants wrap `downloadPDF` in the identical retry loop
(src/downloader.js lines 196-212, src/unnamed/part_000 lines 135-157 and
192-208): `for (attempt = 0; attempt <= retryCount; attempt++)`, with
`await this.delay(1000 * (attempt + 1))` between attempts only, returning
the success or the error of the last attempt.  `runAttemptsAux a left`
models the loop at attempt index `a` with `left = retryCount - a` retries
remaining. -/

/-- The retry loop from attempt `a` with `left` retries remaining. -/
def runAttemptsAux {α : Type} (attemptF : Nat → List Ev × Except DlError α) :
    Nat → Nat → List Ev × Except DlError α
  | a, 0 => attemptF a
  | a, left + 1 =>
    match attemptF a with
    | (evs, .ok res) => (evs, .ok res)
    | (evs, .error _) =>
      let next := runAttemptsAux attemptF (a + 1) left
      (evs ++ Ev.delayMs (1000 * (a + 1)) :: next.1, next.2)

/-- The whole retry loop: attempts `0 .. retryCount`. -/
def runAttempts {α : Type} (attemptF : Nat → List Ev × Except DlError α)
    (retryCount : Nat) : List Ev × Except DlError α :=
  runAttemptsAux attemptF 0 retryCount

/-! ### Batch schedulers -/

/-- One input request: `{ url, name? }` (a bare URL string is the
`name := none` case). -/
structure Item where
  url : Url
  name : Option String
deriving DecidableEq

/-- One terminal outcome record: `{url, fileName, filePath, status:'success'}`
or `{url, fileName, error, status:'failed'}`. -/
inductive Outcome where
  | success (url : Url) (fileName : Option String) (filePath : String)
  | failed (url : Url) (fileName : Option String) (err : DlError)
deriving DecidableEq

/-- Whether an outcome is a success record. -/
def Outcome.isSuccess : Outcome → Bool
  | .success .. => true
  | .failed .. => false

/-- Run every item of one window, in input order, threading the global item
index (models `batch.map(...)` + `Promise.allSettled`, which collects
results positionally). -/
def runWindow (runItem : Nat → Item → List Ev × Outcome) :
    Nat → List Item → List (List Ev × Outcome)
  | _, [] => []
  | i, it :: rest => runItem i it :: runWindow runItem (i + 1) rest

/-- The windowed batch loop of the hardened `downloadMultiplePDFs`
(src/downloader.js lines 184-233): slice off `concurrent` items, settle
them all, split the settled records into successes and failures, then sleep
`delayBetweenBatches` only if items remain (`i + concurrent <
pdfList.length && delayBetweenBatches > 0`) before the next window.  `fuel`
is a structural bound; `fuel ≥ items.length` suffices whenever
`concurrent ≥ 1` (with `concurrent = 0` the source loops forever). -/
def batchLoop (runItem : Nat → Item → List Ev × Outcome)
    (concurrent delayBetween : Nat) :
    Nat → Nat → List Item → List Ev × List Outcome × List Outcome
  | _, _, [] => ([], [], [])
  | 0, _, _ :: _ => ([], [], [])
  | fuel + 1, i, it :: rest0 =>
    let batch := (it :: rest0).take concurrent
    let rest := (it :: rest0).drop concurrent
    let settled := runWindow runItem i batch
    let next := batchLoop runItem concurrent delayBetween fuel (i + batch.length) rest
    let delayEvs := if rest.isEmpty = false ∧ 0 < delayBetween then [Ev.delayMs delayBetween] else []
    ((settled.map Prod.fst).flatten ++ delayEvs ++ next.1,
     (settled.map Prod.snd).filter Outcome.isSuccess ++ next.2.1,
     (settled.map Prod.snd).filter (fun o => !o.isSuccess) ++ next.2.2)

namespace Downloader

/-- Configuration of the hardened `downloadMultiplePDFs`
(src/downloader.js line 173). -/
structure MultiOptions where
  concurrent : Nat := 3
  retryCount : Nat := 3
  delayBetweenBatches : Nat := 1000
deriving DecidableEq

/-- One scheduled item of the hardened pipeline: the retry loop around
`downloadPDF`, then the success/failed record (src/downloader.js lines
191-213).  `env`/`toks` are indexed by attempt so distinct attempts may
observe distinct network behavior. -/
def itemRun (env : Nat → Url → ServerBehavior) (toks : Nat → Nat → Token)
    (fuel retryCount : Nat) (item : Item) : List Ev × Outcome :=
  match runAttempts (fun a => downloadPDF (env a) (toks a) fuel item.url item.name) retryCount with
  | (evs, .ok saved) => (evs, .success item.url item.name saved.filePath)
  | (evs, .error e) => (evs, .failed item.url item.name e)

/-- The hardened `downloadMultiplePDFs` (src/downloader.js lines 172-237),
with `env`/`toks` additionally indexed by global item position. -/
def downloadMultiplePDFs (env : Nat → Nat → Url → ServerBehavior)
    (toks : Nat → Nat → Nat → Token) (fuel : Nat) (opts : MultiOptions)
    (items : List Item) : List Ev × List Outcome × List Outcome :=
  batchLoop (fun i it => itemRun (env i) (toks i) fuel opts.retryCount it)
    opts.concurrent opts.delayBetweenBatches items.length 0 items

end Downloader

namespace Part0

/-- One scheduled item of the baseline pipeline: the identical retry loop
around the baseline `downloadPDF` (src/unnamed/part_000 lines 135-157 and
192-208). -/
def itemRun (env : Nat → Url → ServerBehavior) (fuel retryCount : Nat)
    (item : Item) : List Ev × Outcome :=
  match runAttempts (fun a => downloadPDF (env a) fuel item.url item.name) retryCount with
  | (evs, .ok filePath) => (evs, .success item.url item.name filePath)
  | (evs, .error e) => (evs, .failed item.url item.name e)

/-- The baseline windowed batch loop (src/unnamed/part_000 lines 185-223):
as the hardened one but with no inter-batch delay code at all. -/
def batchLoop0 (runItem : Nat → Item → List Ev × Outcome) (concurrent : Nat) :
    Nat → Nat → List Item → List Ev × List Outcome × List Outcome
  | _, _, [] => ([], [], [])
  | 0, _, _ :: _ => ([], [], [])
  | fuel + 1, i, it :: rest0 =>
    let batch := (it :: rest0).take concurrent
    let rest := (it :: rest0).drop concurrent
    let settled := runWindow runItem i batch
    let next := batchLoop0 runItem concurrent fuel (i + batch.length) rest
    ((settled.map Prod.fst).flatten ++ next.1,
     (settled.map Prod.snd).filter Outcome.isSuccess ++ next.2.1,
     (settled.map Prod.snd).filter (fun o => !o.isSuccess) ++ next.2.2)

/-- The baseline `downloadMultiplePDFs` (src/unnamed/part_000 lines
173-227). -/
def downloadMultiplePDFs (env : Nat → Nat → Url → ServerBehavior)
    (fuel concurrent retryCount : Nat) (items : List Item) :
    List Ev × List Outcome × List Outcome :=
  batchLoop0 (fun i it => itemRun (env i) fuel retryCount it)
    concurrent items.length 0 items

/-- The click-paced sequential loop of `downloadMultiplePDFsWithClick`
(src/unnamed/part_000 lines 127-165): settle item `i` (retry loop, then one
push into results or failed), then `waitForUserClick` when
`pauseAfterFirst && i === 0 && total > 1`, else when `i < total - 1`. -/
def withClickLoop (runItem : Nat → Item → List Ev × Outcome)
    (pauseAfterFirst : Bool) (total : Nat) :
    Nat → List Item → List Ev × List Outcome × List Outcome
  | _, [] => ([], [], [])
  | i, it :: rest =>
    let r := runItem i it
    let next := withClickLoop runItem pauseAfterFirst total (i + 1) rest
    let clickEvs :=
      if pauseAfterFirst = true ∧ i = 0 ∧ 1 < total then [Ev.waitClick]
      else if i < total - 1 then [Ev.waitClick] else []
    (r.1 ++ clickEvs ++ next.1,
     (if r.2.isSuccess then [r.2] else []) ++ next.2.1,
     (if r.2.isSuccess then [] else [r.2]) ++ next.2.2)

/-- Function `downloadMultiplePDFsWithClick` (src/unnamed/part_000 lines 116-170). -/
def downloadMultiplePDFsWithClick (env : Nat → Nat → Url → ServerBehavior)
    (fuel retryCount : Nat) (pauseAfterFirst : Bool) (items : List Item) :
    List Ev × List Outcome × List Outcome :=
  withClickLoop (fun i it => itemRun (env i) fuel retryCount it)
    pauseAfterFirst items.length 0 items

end Part0

/-! ### Specification-side trace descriptions used to state the claims -/

/-- The `delayMs` amounts occurring in a trace, in order. -/
def delaysOf (evs : List Ev) : List Nat :=
  evs.filterMap (fun e => match e with | .delayMs m => some m | _ => none)

/-- How many `waitClick` suspensions a trace contains. -/
def clickCount (evs : List Ev) : Nat :=
  evs.countP (fun e => match e with | .waitClick => true | _ => false)

/-- Expected trace of a run of the retry loop in which every attempt fails:
each attempt's events, with the backoff delay `1000 * (attempt + 1)`
strictly between consecutive attempts and never after the last. -/
def allFailEvs (evs : Nat → List Ev) : Nat → Nat → List Ev
  | a, 0 => evs a
  | a, left + 1 => evs a ++ Ev.delayMs (1000 * (a + 1)) :: allFailEvs evs (a + 1) left

/-- The window partition of a request list: slices of `c` consecutive
items (`fuel ≥ items.length` suffices when `c ≥ 1`). -/
def windowsOf {α : Type} (c : Nat) : Nat → List α → List (List α)
  | _, [] => []
  | 0, _ :: _ => []
  | fuel + 1, x :: rest0 => (x :: rest0).take c :: windowsOf c fuel ((x :: rest0).drop c)

/-- Specification-side window-by-window run: settle every item of a window
before touching the next window; insert the inter-window delay only between
windows (`delayBetween = 0` inserts nothing, matching the baseline variant
which has no delay code). -/
def windowsRun (runItem : Nat → Item → List Ev × Outcome) (delayBetween : Nat) :
    Nat → List (List Item) → List Ev × List Outcome × List Outcome
  | _, [] => ([], [], [])
  | i, w :: ws =>
    let settled := runWindow runItem i w
    let next := windowsRun runItem delayBetween (i + w.length) ws
    let delayEvs := if ws.isEmpty = false ∧ 0 < delayBetween then [Ev.delayMs delayBetween] else []
    ((settled.map Prod.fst).flatten ++ delayEvs ++ next.1,
     (settled.map Prod.snd).filter Outcome.isSuccess ++ next.2.1,
     (settled.map Prod.snd).filter (fun o => !o.isSuccess) ++ next.2.2)

/-- Item traces of a sequential run, in input order. -/
def itemTraces (runItem : Nat → Item → List Ev × Outcome) :
    Nat → List Item → List (List Ev)
  | _, [] => []
  | i, it :: rest => (runItem i it).1 :: itemTraces runItem (i + 1) rest

/-- Expected click-paced trace: one `waitClick` after each item's trace
except the last item's. -/
def interposeClicks : List (List Ev) → List Ev
  | [] => []
  | [es] => es
  | es :: rest :: more => es ++ Ev.waitClick :: interposeClicks (rest :: more)

/-! ### Redirect chains (claim C4) -/

/-- The environment answers `u` with a 200 response carrying `finalBody`
that will stream to disk without a write error. -/
def respondsOk (b : ServerBehavior) (finalBody : Bytes) : Bool :=
  match b with
  | .respond r => r.statusCode == 200 && r.body == finalBody && r.writeErr == none
  | _ => false

/-- The environment answers `u` with a 3xx redirect whose Location is `v`. -/
def redirectsTo (b : ServerBehavior) (v : Url) : Bool :=
  match b with
  | .respond r => decide (300 ≤ r.statusCode) && decide (r.statusCode < 400) && r.location == some v
  | _ => false

/-- A URL that passes the hardened variant's validation. -/
def validHttpUrl (u : Url) : Bool :=
  u.hostname.isSome && (u.protocol == some "http:" || u.protocol == some "https:")

/-- Predicate `chainTo env finalBody u hops`: starting from `u`, the environment
redirects along `hops` (each hop itself a valid http(s) URL) and the last
URL answers 200 with `finalBody`. -/
def chainTo (env : Url → ServerBehavior) (finalBody : Bytes) : Url → List Url → Bool
  | u, [] => respondsOk (env u) finalBody
  | u, v :: rest => redirectsTo (env u) v && validHttpUrl v && chainTo env finalBody v rest

/-- The part of a safe filename that depends only on the original name:
what precedes the `_timestamp_random.pdf` tail of `generateSafeFilename`. -/
def safeStem (name : String) : String :=
  if (sanitizeFilename name).toLower.endsWith ".pdf" = false then sanitizeFilename name
  else dropFromLastDot (sanitizeFilename name)

/-! ### Concrete inputs used by the witness theorems -/

/-- A valid http URL. -/
def wUrlA : Url := ⟨some "http:", some "example.com", "/docs/report.pdf"⟩

/-- A valid https URL with a different basename. -/
def wUrlB : Url := ⟨some "https:", some "example.com", "/files/final.pdf"⟩

/-- A URL on a different host sharing `wUrlA`'s basename. -/
def wUrlC : Url := ⟨some "https:", some "other.org", "/archive/report.pdf"⟩

/-- A URL with an unsupported scheme. -/
def wUrlFtp : Url := ⟨some "ftp:", some "example.com", "/f.pdf"⟩

/-- Bytes beginning with the `%PDF` magic. -/
def wPdfBody : Bytes := [37, 80, 68, 70, 49, 10]

/-- Bytes beginning with `<htm`: not a PDF. -/
def wHtmlBody : Bytes := [60, 104, 116, 109, 108]

/-- A plain 200 response carrying `body`. -/
def wOk (body : Bytes) : ServerBehavior :=
  .respond ⟨200, "OK", none, some "application/pdf", body, none⟩

/-- An environment whose every request times out. -/
def wEnvExpire : Url → ServerBehavior := fun _ => .expire

/-- An environment serving non-PDF content with status 200. -/
def wEnvHtml : Url → ServerBehavior := fun _ => wOk wHtmlBody

/-- An environment redirecting `wUrlA` to `wUrlB`, which serves the PDF. -/
def wEnvChain : Url → ServerBehavior := fun u =>
  if u = wUrlA then .respond ⟨302, "Found", some wUrlB, none, [], none⟩ else wOk wPdfBody

/-- A concrete uniqueness token. -/
def wTok : Token := ⟨20, [1, 2, 3, 4]⟩

/-- A token differing from `wTok` in its random bytes. -/
def wTok2 : Token := ⟨20, [1, 2, 3, 5]⟩

/-- A constant token supply. -/
def wToks : Nat → Token := fun _ => wTok

/-- Five requests, mixing named and unnamed ones. -/
def wItems : List Item :=
  [⟨wUrlA, none⟩, ⟨wUrlB, some "b.pdf"⟩, ⟨wUrlA, some "c"⟩, ⟨wUrlB, none⟩, ⟨wUrlA, none⟩]

/-! ## Helper lemmas: strings and digit rendering -/

/-- String append acts as list append on the underlying characters. -/
theorem strData_append (a b : String) : (a ++ b).data = a.data ++ b.data := rfl

/-- Strings with equal character lists are equal. -/
theorem strExt {a b : String} (h : a.data = b.data) : a = b := by
  cases a; cases b; cases h; rfl

/-- Lemma: `digAux` recombines to the input whenever the fuel suffices. -/
theorem fromDigitsLE_digAux : ∀ fuel n, n ≤ fuel → fromDigitsLE (digAux fuel n) = n := by
  intro fuel
  induction fuel with
  | zero =>
    intro n hn
    have : n = 0 := Nat.le_zero.mp hn
    subst this
    rfl
  | succ f ih =>
    intro n hn
    by_cases h0 : n = 0
    · subst h0; rfl
    · have hlt : n / 10 < n := Nat.div_lt_self (Nat.pos_of_ne_zero h0) (by norm_num)
      have hdiv : n / 10 ≤ f := by omega
      simp only [digAux, if_neg h0, fromDigitsLE, List.foldr_cons]
      have hrec := ih (n / 10) hdiv
      simp only [fromDigitsLE] at hrec
      rw [hrec]
      omega

/-- Digit recombination determines `natToDigitsLE`. -/
theorem fromDigitsLE_natToDigitsLE (n : Nat) : fromDigitsLE (natToDigitsLE n) = n :=
  fromDigitsLE_digAux n n (Nat.le_refl n)

/-- Every produced decimal digit is below 10. -/
theorem digAux_lt : ∀ fuel n, ∀ d ∈ digAux fuel n, d < 10 := by
  intro fuel
  induction fuel with
  | zero => intro n d hd; simp [digAux] at hd
  | succ f ih =>
    intro n d hd
    by_cases h0 : n = 0
    · subst h0; simp [digAux] at hd
    · simp only [digAux, if_neg h0, List.mem_cons] at hd
      rcases hd with h | h
      · subst h; exact Nat.mod_lt _ (by norm_num)
      · exact ih _ _ h

/-- Every digit of `natToDigitsLE` is below 10. -/
theorem natToDigitsLE_lt (n : Nat) : ∀ d ∈ natToDigitsLE n, d < 10 :=
  digAux_lt n n

/-- Lemma: `digitChar` is injective on decimal digits. -/
theorem digitChar_inj : ∀ a < 10, ∀ b < 10, digitChar a = digitChar b → a = b := by decide

/-- Decimal digit characters are never an underscore. -/
theorem digitChar_ne_underscore : ∀ a < 10, digitChar a ≠ '_' := by decide

/-- Mapping `digitChar` over digit lists is injective. -/
theorem map_digitChar_inj : ∀ l1 l2 : List Nat, (∀ d ∈ l1, d < 10) → (∀ d ∈ l2, d < 10) →
    l1.map digitChar = l2.map digitChar → l1 = l2 := by
  intro l1
  induction l1 with
  | nil => intro l2 _ _ h; cases l2 <;> simp_all
  | cons d l ih =>
    intro l2 h1 h2 h
    cases l2 with
    | nil => simp at h
    | cons e l2' =>
      simp only [List.map_cons, List.cons.injEq] at h
      have hd : d = e := digitChar_inj d (h1 d (by simp)) e (h2 e (by simp)) h.1
      have ht : l = l2' := ih l2' (fun x hx => h1 x (by simp [hx])) (fun x hx => h2 x (by simp [hx])) h.2
      rw [hd, ht]

/-- The decimal rendering of naturals is injective. -/
theorem natToString_inj {n m : Nat} (h : natToString n = natToString m) : n = m := by
  by_cases hn : n = 0 <;> by_cases hm : m = 0
  · omega
  · exfalso
    have hd := congrArg String.data h
    simp only [natToString, if_pos hn, if_neg hm] at hd
    have : ([0] : List Nat).map digitChar = ((natToDigitsLE m).reverse).map digitChar := hd
    have h0 : ([0] : List Nat) = (natToDigitsLE m).reverse :=
      map_digitChar_inj _ _ (by decide)
        (fun d hd' => natToDigitsLE_lt m d (List.mem_reverse.mp hd')) this
    have hlist : natToDigitsLE m = [0] := by
      have := congrArg List.reverse h0
      simpa using this.symm
    have h1 := fromDigitsLE_natToDigitsLE m
    rw [hlist] at h1
    exact hm (by simpa [fromDigitsLE] using h1.symm)
  · exfalso
    have hd := congrArg String.data h
    simp only [natToString, if_neg hn, if_pos hm] at hd
    have : ((natToDigitsLE n).reverse).map digitChar = ([0] : List Nat).map digitChar := hd
    have h0 : (natToDigitsLE n).reverse = ([0] : List Nat) :=
      map_digitChar_inj _ _ (fun d hd' => natToDigitsLE_lt n d (List.mem_reverse.mp hd')) (by decide) this
    have hlist : natToDigitsLE n = [0] := by
      have := congrArg List.reverse h0
      simpa using this
    have := fromDigitsLE_natToDigitsLE n
    rw [hlist] at this
    exact hn (by simpa [fromDigitsLE] using this.symm)
  · have hd := congrArg String.data h
    simp only [natToString, if_neg hn, if_neg hm] at hd
    have h0 : (natToDigitsLE n).reverse = (natToDigitsLE m).reverse :=
      map_digitChar_inj _ _ (fun d hd' => natToDigitsLE_lt n d (List.mem_reverse.mp hd'))
        (fun d hd' => natToDigitsLE_lt m d (List.mem_reverse.mp hd')) hd
    have hlist : natToDigitsLE n = natToDigitsLE m := by
      have := congrArg List.reverse h0
      simpa using this
    have h1 := fromDigitsLE_natToDigitsLE n
    rw [hlist] at h1
    rw [← fromDigitsLE_natToDigitsLE m, h1]

/-- No decimal rendering contains an underscore. -/
theorem natToString_no_underscore (n : Nat) : '_' ∉ (natToString n).data := by
  by_cases hn : n = 0
  · subst hn; decide
  · simp only [natToString, if_neg hn]
    intro hmem
    rcases List.mem_map.mp hmem with ⟨d, hd, hchar⟩
    exact digitChar_ne_underscore d (natToDigitsLE_lt n d (List.mem_reverse.mp hd)) hchar

/-! ## Helper lemmas: hex rendering -/

/-- Lemma: `hexChar` is injective on hex digits. -/
theorem hexChar_inj : ∀ a < 16, ∀ b < 16, hexChar a = hexChar b → a = b := by decide

/-- Hex digit characters are never an underscore. -/
theorem hexChar_ne_underscore : ∀ a < 16, hexChar a ≠ '_' := by decide

/-- Lemma: `byteToHex` is injective on bytes. -/
theorem byteToHex_inj {a b : Nat} (ha : a < 256) (hb : b < 256)
    (h : byteToHex a = byteToHex b) : a = b := by
  simp only [byteToHex, List.cons.injEq, and_true] at h
  have h1 : a / 16 = b / 16 :=
    hexChar_inj _ (by omega) _ (by omega) h.1
  have h2 : a % 16 = b % 16 :=
    hexChar_inj _ (by omega) _ (by omega) h.2
  omega

/-- The hex rendering of bytes is injective on byte lists. -/
theorem bytesToHex_inj : ∀ b1 b2 : Bytes, (∀ b ∈ b1, b < 256) → (∀ b ∈ b2, b < 256) →
    bytesToHex b1 = bytesToHex b2 → b1 = b2 := by
  intro b1
  induction b1 with
  | nil =>
    intro b2 _ _ h
    cases b2 with
    | nil => rfl
    | cons x xs => simp [bytesToHex, byteToHex] at h
  | cons x xs ih =>
    intro b2 h1 h2 h
    cases b2 with
    | nil => simp [bytesToHex, byteToHex] at h
    | cons y ys =>
      simp only [bytesToHex, List.map_cons, List.flatten_cons, byteToHex,
        List.cons_append, List.nil_append, List.cons.injEq] at h
      have hx : x = y := by
        have hxy : byteToHex x = byteToHex y := by
          simp [byteToHex, h.1, h.2.1]
        exact byteToHex_inj (h1 x (by simp)) (h2 y (by simp)) hxy
      have ht : xs = ys :=
        ih ys (fun b hb => h1 b (by simp [hb])) (fun b hb => h2 b (by simp [hb]))
          (by simpa [bytesToHex] using h.2.2)
      rw [hx, ht]

/-- No hex rendering of genuine bytes contains an underscore. -/
theorem bytesToHex_no_underscore : ∀ bs : Bytes, (∀ b ∈ bs, b < 256) →
    '_' ∉ bytesToHex bs := by
  intro bs
  induction bs with
  | nil => intro _ h; simp [bytesToHex] at h
  | cons x xs ih =>
    intro hb h
    simp only [bytesToHex, List.map_cons, List.flatten_cons, byteToHex, List.cons_append,
      List.nil_append, List.mem_cons] at h
    rcases h with h | h | h
    · exact hexChar_ne_underscore (x / 16) (by have := hb x (by simp); omega) h.symm
    · exact hexChar_ne_underscore (x % 16) (by omega) h.symm
    · exact ih (fun b hb' => hb b (by simp [hb'])) (by simpa [bytesToHex] using h)

/-! ## Helper lemmas: safe filenames (claim C5) -/

/-- Splitting a character list at its first underscore is unambiguous. -/
theorem append_underscore_inj : ∀ a1 a2 b1 b2 : List Char, '_' ∉ a1 → '_' ∉ a2 →
    a1 ++ '_' :: b1 = a2 ++ '_' :: b2 → a1 = a2 ∧ b1 = b2 := by
  intro a1
  induction a1 with
  | nil =>
    intro a2 b1 b2 _ h2 h
    cases a2 with
    | nil => simpa using h
    | cons c a2' =>
      simp only [List.nil_append, List.cons_append, List.cons.injEq] at h
      exact absurd (by simp [← h.1]) h2
  | cons c a1' ih =>
    intro a2 b1 b2 h1 h2 h
    cases a2 with
    | nil =>
      simp only [List.cons_append, List.nil_append, List.cons.injEq] at h
      exact absurd (by simp [h.1]) h1
    | cons d a2' =>
      simp only [List.cons_append, List.cons.injEq] at h
      obtain ⟨ha, hb⟩ := ih a2' b1 b2 (fun hm => h1 (by simp [hm]))
        (fun hm => h2 (by simp [hm])) h.2
      exact ⟨by rw [h.1, ha], hb⟩

/-- Lemma: `generateSafeFilename` decomposed: a stem depending only on the name,
then underscore, timestamp, underscore, random hex, `.pdf`. -/
theorem generateSafeFilename_data (name : String) (tok : Token) :
    (generateSafeFilename name tok).data =
      (safeStem name).data ++ '_' :: ((natToString tok.timestamp).data ++
        '_' :: (bytesToHex tok.randomBytes ++ ".pdf".data)) := by
  by_cases h : (sanitizeFilename name).toLower.endsWith ".pdf" = false
  · simp only [generateSafeFilename, safeStem, if_pos h, strData_append]
    simp
  · simp only [generateSafeFilename, safeStem, if_neg h, strData_append]
    simp

/-- Distinct uniqueness tokens give distinct safe filenames for the same
original name. -/
theorem generateSafeFilename_token_inj (name : String) (t1 t2 : Token)
    (hb1 : ∀ b ∈ t1.randomBytes, b < 256) (hb2 : ∀ b ∈ t2.randomBytes, b < 256)
    (h : generateSafeFilename name t1 = generateSafeFilename name t2) : t1 = t2 := by
  have hd := congrArg String.data h
  rw [generateSafeFilename_data, generateSafeFilename_data] at hd
  have hmid := List.append_cancel_left hd
  have htail := (List.cons.injEq _ _ _ _).mp hmid
  obtain ⟨hts, hrest⟩ := append_underscore_inj _ _ _ _
    (natToString_no_underscore t1.timestamp) (natToString_no_underscore t2.timestamp) htail.2
  have htime : t1.timestamp = t2.timestamp := natToString_inj (strExt hts)
  have hhex : bytesToHex t1.randomBytes = bytesToHex t2.randomBytes :=
    List.append_cancel_right hrest
  have hrand : t1.randomBytes = t2.randomBytes := bytesToHex_inj _ _ hb1 hb2 hhex
  cases t1; cases t2
  simp_all

/-- Lemma: `deriveFileName` depends only on the basename of the URL path. -/
theorem deriveFileName_congr {u1 u2 : Url} (h : basename u1.pathname = basename u2.pathname) :
    Downloader.deriveFileName u1 = Downloader.deriveFileName u2 := by
  simp [Downloader.deriveFileName, h]

/-- C5: for two requests lacking an explicit name whose URLs share the same
basename, the hardened variant's resolved filenames
(`generateSafeFilename` over the URL-derived name) differ whenever the two
drawn uniqueness tokens (timestamp + random bytes) differ — the condition
the spec states as "uniqueness token differs".  `Date.now()` and
`crypto.randomBytes(4)` are modelled as explicit token draws; the bound
`b < 256` says the random draws are genuine bytes. -/
theorem c5_no_filename_collision (u1 u2 : Url) (t1 t2 : Token)
    (hbase : basename u1.pathname = basename u2.pathname)
    (hb1 : ∀ b ∈ t1.randomBytes, b < 256) (hb2 : ∀ b ∈ t2.randomBytes, b < 256)
    (hne : t1 ≠ t2) :
    generateSafeFilename (Downloader.derivedName u1 none) t1 ≠
      generateSafeFilename (Downloader.derivedName u2 none) t2 := by
  intro heq
  have hname : Downloader.derivedName u2 none = Downloader.derivedName u1 none := by
    show Downloader.deriveFileName u2 = Downloader.deriveFileName u1
    exact (deriveFileName_congr hbase).symm
  rw [hname] at heq
  exact hne (generateSafeFilename_token_inj _ _ _ hb1 hb2 heq)

/-- Witness for C5 at concrete URLs sharing the basename `report.pdf` and
tokens differing in one random byte. -/
theorem c5_no_filename_collision_witness :
    basename wUrlA.pathname = basename wUrlC.pathname ∧ wTok ≠ wTok2 ∧
    generateSafeFilename (Downloader.derivedName wUrlA none) wTok ≠
      generateSafeFilename (Downloader.derivedName wUrlC none) wTok2 :=
  ⟨by decide, by decide,
    c5_no_filename_collision wUrlA wUrlC wTok wTok2 (by decide) (by decide) (by decide) (by decide)⟩

/-! ## Helper lemmas: the retry loop (claim C2) -/

/-- Lemma: `delaysOf` distributes over append. -/
theorem delaysOf_append (a b : List Ev) : delaysOf (a ++ b) = delaysOf a ++ delaysOf b := by
  simp [delaysOf]

/-- Lemma: `delaysOf` picks up a leading delay event. -/
theorem delaysOf_cons_delay (m : Nat) (l : List Ev) :
    delaysOf (Ev.delayMs m :: l) = m :: delaysOf l := by
  simp [delaysOf]

/-- When every attempt fails, the retry loop from attempt `a` with `left`
retries remaining produces the interleaved trace and the last error. -/
theorem runAttemptsAux_allFail {α : Type} (attemptF : Nat → List Ev × Except DlError α)
    (evs : Nat → List Ev) (errs : Nat → DlError)
    (hfail : ∀ a, attemptF a = (evs a, .error (errs a))) :
    ∀ left a, runAttemptsAux attemptF a left = (allFailEvs evs a left, .error (errs (a + left))) := by
  intro left
  induction left with
  | zero =>
    intro a
    rw [show runAttemptsAux attemptF a 0 = attemptF a from rfl, hfail a]
    simp [allFailEvs]
  | succ l ih =>
    intro a
    rw [show runAttemptsAux attemptF a (l + 1) =
        (match attemptF a with
         | (evs, .ok res) => (evs, .ok res)
         | (evs, .error _) =>
           let next := runAttemptsAux attemptF (a + 1) l
           (evs ++ Ev.delayMs (1000 * (a + 1)) :: next.1, next.2)) from rfl,
      hfail a]
    simp only [ih (a + 1)]
    rw [show allFailEvs evs a (l + 1) =
        evs a ++ Ev.delayMs (1000 * (a + 1)) :: allFailEvs evs (a + 1) l from rfl]
    have : a + 1 + l = a + (l + 1) := by omega
    rw [this]

/-- The delays of an all-fail trace, when the attempts themselves sleep
nowhere, are exactly the backoff sleeps. -/
theorem delaysOf_allFailEvs (evs : Nat → List Ev) (hnd : ∀ a, delaysOf (evs a) = []) :
    ∀ left a, delaysOf (allFailEvs evs a left) =
      (List.range left).map (fun i => 1000 * (a + i + 1)) := by
  intro left
  induction left with
  | zero => intro a; simp [allFailEvs, hnd a]
  | succ l ih =>
    intro a
    rw [show allFailEvs evs a (l + 1) =
        evs a ++ Ev.delayMs (1000 * (a + 1)) :: allFailEvs evs (a + 1) l from rfl,
      delaysOf_append, delaysOf_cons_delay, hnd a, ih (a + 1)]
    have hmaps : (List.range l).map ((fun i => 1000 * (a + i + 1)) ∘ Nat.succ) =
        (List.range l).map (fun i => 1000 * (a + 1 + i + 1)) :=
      List.map_congr_left (fun i _ => by simp only [Function.comp_apply]; omega)
    rw [List.range_succ_eq_map, List.map_cons, List.map_map, hmaps]
    simp

/-- The backoff delays are non-decreasing. -/
theorem chain'_le_backoff (a rc : Nat) :
    List.Chain' (fun x y => x ≤ y) ((List.range rc).map (fun i => 1000 * (a + i + 1))) := by
  apply List.Pairwise.chain'
  rw [List.pairwise_map]
  exact List.Pairwise.imp (fun h => by omega) (List.pairwise_lt_range rc)

/-- C2: when every fetch attempt fails, the retry loop shared by both
variants performs exactly the attempts `0 .. retryCount` — the trace is the
concatenation of the `retryCount + 1` attempt traces — sleeps
`1000 * (attemptIndex + 1)` ms exactly between consecutive attempts (never
after the last), these backoff delays are non-decreasing, and the recorded
error is the last attempt's error only. -/
theorem c2_retry_exhaustion {α : Type} (attemptF : Nat → List Ev × Except DlError α)
    (evs : Nat → List Ev) (errs : Nat → DlError) (retryCount : Nat)
    (hfail : ∀ a, attemptF a = (evs a, .error (errs a)))
    (hnd : ∀ a, delaysOf (evs a) = []) :
    runAttempts attemptF retryCount = (allFailEvs evs 0 retryCount, .error (errs retryCount)) ∧
    delaysOf (allFailEvs evs 0 retryCount) =
      (List.range retryCount).map (fun i => 1000 * (i + 1)) ∧
    List.Chain' (fun x y => x ≤ y) (delaysOf (allFailEvs evs 0 retryCount)) := by
  have h1 : runAttempts attemptF retryCount =
      (allFailEvs evs 0 retryCount, .error (errs retryCount)) := by
    rw [show runAttempts attemptF retryCount = runAttemptsAux attemptF 0 retryCount from rfl,
      runAttemptsAux_allFail attemptF evs errs hfail retryCount 0]
    simp
  have h2 : delaysOf (allFailEvs evs 0 retryCount) =
      (List.range retryCount).map (fun i => 1000 * (i + 1)) := by
    rw [delaysOf_allFailEvs evs hnd retryCount 0]
    exact List.map_congr_left (fun i _ => by omega)
  refine ⟨h1, h2, ?_⟩
  rw [delaysOf_allFailEvs evs hnd retryCount 0]
  exact chain'_le_backoff 0 retryCount

/-- Witness for C2: the hardened `downloadPDF` against an
always-timing-out server, with `retryCount = 2`: three attempts, delays
1000 then 2000 between them, final error the last timeout. -/
theorem c2_retry_exhaustion_witness :
    runAttempts (fun _ => Downloader.downloadPDF wEnvExpire wToks 1 wUrlA none) 2 =
      (allFailEvs (fun _ => [Ev.netRequest wUrlA]) 0 2, .error DlError.timeoutError) ∧
    delaysOf (allFailEvs (fun _ => [Ev.netRequest wUrlA]) 0 2) = [1000, 2000] ∧
    List.Chain' (fun x y => x ≤ y) (delaysOf (allFailEvs (fun _ => [Ev.netRequest wUrlA]) 0 2)) := by
  have hone : Downloader.downloadPDF wEnvExpire wToks 1 wUrlA none =
      ([Ev.netRequest wUrlA], .error DlError.timeoutError) := by decide
  have h := c2_retry_exhaustion (fun _ => Downloader.downloadPDF wEnvExpire wToks 1 wUrlA none)
    (fun _ => [Ev.netRequest wUrlA]) (fun _ => DlError.timeoutError) 2
    (fun _ => hone) (fun _ => rfl)
  refine ⟨h.1, ?_, h.2.2⟩
  rw [h.2.1]
  decide

/-! ## Helper lemmas: the hardened fetch (claims C3, C4, C7) -/

/-- Unpacking `validHttpUrl`. -/
theorem validHttpUrl_spec {u : Url} (hu : validHttpUrl u = true) :
    u.protocol.isNone = false ∧ u.hostname.isNone = false ∧
    ¬(u.protocol ≠ some "http:" ∧ u.protocol ≠ some "https:") := by
  simp only [validHttpUrl, Bool.and_eq_true, Bool.or_eq_true, beq_iff_eq] at hu
  obtain ⟨hh, hp⟩ := hu
  refine ⟨?_, ?_, ?_⟩
  · rcases hp with hp | hp <;> simp [hp]
  · cases hc : u.hostname with
    | none => rw [hc] at hh; simp at hh
    | some _ => rfl
  · rcases hp with hp | hp <;> simp [hp]

/-- A valid URL whose server answers 200 with a clean stream downloads in
one hop: the body is written under the uniquified derived name and the
fetch resolves with the validation flag. -/
theorem downloadPDF_ok (env : Url → ServerBehavior) (toks : Nat → Token)
    (fuel : Nat) (u : Url) (fileName : Option String) (r : Response)
    (hu : validHttpUrl u = true) (henv : env u = .respond r)
    (h200 : r.statusCode = 200) (hw : r.writeErr = none) :
    Downloader.downloadPDF env toks fuel u fileName =
      ([Ev.netRequest u,
        Ev.fileWrite (generateSafeFilename (Downloader.derivedName u fileName) (toks 0)) r.body],
       .ok { filePath := generateSafeFilename (Downloader.derivedName u fileName) (toks 0),
             body := r.body, validated := validatePDFBytes r.body }) := by
  obtain ⟨hp, hh, hns⟩ := validHttpUrl_spec hu
  rw [Downloader.downloadPDF.eq_def]
  simp only [hp, hh, henv]
  cases hloc : r.location with
  | none => simp [hns, Downloader.finishResponse, h200, hw]
  | some loc => simp [hns, Downloader.finishResponse, h200, hw]

/-- A valid URL whose server answers a 3xx with a Location recurses into
the redirect target, preserving the already-derived name and shifting the
token supply. -/
theorem downloadPDF_redirect (env : Url → ServerBehavior) (toks : Nat → Token)
    (fuel : Nat) (u v : Url) (fileName : Option String) (r : Response)
    (hu : validHttpUrl u = true) (henv : env u = .respond r)
    (h3 : 300 ≤ r.statusCode) (h4 : r.statusCode < 400) (hloc : r.location = some v) :
    Downloader.downloadPDF env toks (fuel + 1) u fileName =
      (Ev.netRequest u ::
        (Downloader.downloadPDF env (fun n => toks (n + 1)) fuel v
          (some (Downloader.derivedName u fileName))).1,
       (Downloader.downloadPDF env (fun n => toks (n + 1)) fuel v
          (some (Downloader.derivedName u fileName))).2) := by
  obtain ⟨hp, hh, hns⟩ := validHttpUrl_spec hu
  rw [Downloader.downloadPDF.eq_def]
  simp [hp, hh, hns, henv, hloc, h3, h4]

/-- C3: a URL that is malformed (unparsed protocol or hostname) or whose
scheme is neither `http:` nor `https:` is rejected by the hardened
`downloadPDF` with an invalid-URL / unsupported-protocol error and an empty
event trace: no network request is issued and no file is created.  (The
baseline variant has no such in-repo check; there the rejection is
performed by the node `http` module itself, outside this repository.) -/
theorem c3_invalid_url_rejected (env : Url → ServerBehavior) (toks : Nat → Token)
    (fuel : Nat) (u : Url) (fileName : Option String)
    (h : u.protocol.isNone = true ∨ u.hostname.isNone = true ∨
         (u.protocol ≠ some "http:" ∧ u.protocol ≠ some "https:")) :
    ∃ e, Downloader.downloadPDF env toks fuel u fileName = ([], .error e) ∧
      (e = DlError.invalidUrl u ∨ ∃ p, e = DlError.unsupportedProtocol p) := by
  by_cases h1 : u.protocol.isNone = true ∨ u.hostname.isNone = true
  · refine ⟨DlError.invalidUrl u, ?_, Or.inl rfl⟩
    rw [Downloader.downloadPDF.eq_def]
    rcases h1 with h1 | h1 <;> simp [h1]
  · have hns : u.protocol ≠ some "http:" ∧ u.protocol ≠ some "https:" := by tauto
    push_neg at h1
    refine ⟨DlError.unsupportedProtocol ((u.protocol).getD ""), ?_,
      Or.inr ⟨(u.protocol).getD "", rfl⟩⟩
    rw [Downloader.downloadPDF.eq_def]
    simp [Bool.of_not_eq_true h1.1, Bool.of_not_eq_true h1.2, hns]

/-- Witness for C3: an `ftp:` URL is rejected with no events. -/
theorem c3_invalid_url_rejected_witness :
    (wUrlFtp.protocol ≠ some "http:" ∧ wUrlFtp.protocol ≠ some "https:") ∧
    (∃ e, Downloader.downloadPDF wEnvExpire wToks 3 wUrlFtp none = ([], .error e) ∧
      (e = DlError.invalidUrl wUrlFtp ∨ ∃ p, e = DlError.unsupportedProtocol p)) :=
  ⟨by decide,
    c3_invalid_url_rejected wEnvExpire wToks 3 wUrlFtp none (Or.inr (Or.inr (by decide)))⟩

/-- C7: a completed download whose write succeeded but whose first four
(7-bit-masked) bytes are not `%PDF` still resolves to Success; the
validation failure appears only as the advisory `validated := false` flag;
the trace holds no `fileDelete` (the file is not rolled back); and
`validatePDF` itself degrades an unreadable file to `false` instead of
raising. -/
theorem c7_validation_advisory (env : Url → ServerBehavior) (toks : Nat → Token)
    (fuel : Nat) (u : Url) (fileName : Option String) (r : Response)
    (hu : validHttpUrl u = true) (henv : env u = .respond r)
    (h200 : r.statusCode = 200) (hw : r.writeErr = none)
    (hbad : validatePDFBytes r.body = false) :
    Downloader.downloadPDF env toks fuel u fileName =
      ([Ev.netRequest u,
        Ev.fileWrite (generateSafeFilename (Downloader.derivedName u fileName) (toks 0)) r.body],
       .ok { filePath := generateSafeFilename (Downloader.derivedName u fileName) (toks 0),
             body := r.body, validated := false }) ∧
    validatePDF none = false := by
  constructor
  · rw [downloadPDF_ok env toks fuel u fileName r hu henv h200 hw, hbad]
  · rfl

/-- Witness for C7: an HTML body served with 200. -/
theorem c7_validation_advisory_witness :
    validatePDFBytes wHtmlBody = false ∧
    (Downloader.downloadPDF wEnvHtml wToks 2 wUrlA none =
      ([Ev.netRequest wUrlA,
        Ev.fileWrite (generateSafeFilename (Downloader.derivedName wUrlA none) (wToks 0)) wHtmlBody],
       .ok { filePath := generateSafeFilename (Downloader.derivedName wUrlA none) (wToks 0),
             body := wHtmlBody, validated := false }) ∧
     validatePDF none = false) :=
  ⟨by decide,
    c7_validation_advisory wEnvHtml wToks 2 wUrlA none
      ⟨200, "OK", none, some "application/pdf", wHtmlBody, none⟩
      (by decide) rfl rfl rfl (by decide)⟩

/-- C4: a finite redirect chain of 3xx+Location hops ending in a 200
resolves to Success carrying the final hop's content, written under a
filename generated from the originally supplied (or originally derived)
name — never re-derived from a redirect target URL; the uniqueness token is
the one drawn at the final hop (`toks hops.length`). -/
theorem c4_redirect_chain (env : Url → ServerBehavior) (finalBody : Bytes) :
    ∀ (hops : List Url) (toks : Nat → Token) (fuel : Nat) (u : Url) (fileName : Option String),
      validHttpUrl u = true → chainTo env finalBody u hops = true → hops.length ≤ fuel →
      ∃ evs, Downloader.downloadPDF env toks fuel u fileName =
          (evs, .ok { filePath := generateSafeFilename (Downloader.derivedName u fileName)
                        (toks hops.length),
                      body := finalBody, validated := validatePDFBytes finalBody }) ∧
        Ev.fileWrite (generateSafeFilename (Downloader.derivedName u fileName) (toks hops.length))
          finalBody ∈ evs := by
  intro hops
  induction hops with
  | nil =>
    intro toks fuel u fileName hu hchain _
    rw [show chainTo env finalBody u [] = respondsOk (env u) finalBody from rfl] at hchain
    cases henv : env u with
    | connectionError msg => rw [henv] at hchain; simp [respondsOk] at hchain
    | expire => rw [henv] at hchain; simp [respondsOk] at hchain
    | respond r =>
      rw [henv] at hchain
      simp only [respondsOk, Bool.and_eq_true, beq_iff_eq] at hchain
      obtain ⟨⟨h200, hbody⟩, hw⟩ := hchain
      refine ⟨[Ev.netRequest u,
        Ev.fileWrite (generateSafeFilename (Downloader.derivedName u fileName) (toks 0)) finalBody],
        ?_, by simp⟩
      rw [downloadPDF_ok env toks fuel u fileName r hu henv h200 hw, hbody]
      rfl
  | cons v rest ih =>
    intro toks fuel u fileName hu hchain hfuel
    rw [show chainTo env finalBody u (v :: rest) =
        (redirectsTo (env u) v && validHttpUrl v && chainTo env finalBody v rest) from rfl] at hchain
    simp only [Bool.and_eq_true] at hchain
    obtain ⟨⟨hred, hv⟩, hrest⟩ := hchain
    cases henv : env u with
    | connectionError msg => rw [henv] at hred; simp [redirectsTo] at hred
    | expire => rw [henv] at hred; simp [redirectsTo] at hred
    | respond r =>
      rw [henv] at hred
      simp only [redirectsTo, Bool.and_eq_true, decide_eq_true_eq, beq_iff_eq] at hred
      obtain ⟨⟨h3, h4⟩, hloc⟩ := hred
      cases fuel with
      | zero => simp at hfuel
      | succ f =>
        have hlen : rest.length ≤ f := by simpa using hfuel
        obtain ⟨evs', heq', hmem'⟩ :=
          ih (fun n => toks (n + 1)) f v (some (Downloader.derivedName u fileName)) hv hrest hlen
        refine ⟨Ev.netRequest u :: evs', ?_, List.mem_cons_of_mem _ ?_⟩
        · rw [downloadPDF_redirect env toks f u v fileName r hu henv h3 h4 hloc, heq']
          rfl
        · exact hmem'

/-! ## Helper lemmas: batch scheduling (claims C1, C8, C9, C10) -/

/-- A window settles exactly one record per item. -/
theorem runWindow_length (runItem : Nat → Item → List Ev × Outcome) :
    ∀ (w : List Item) (i : Nat), (runWindow runItem i w).length = w.length := by
  intro w
  induction w with
  | nil => intro i; rfl
  | cons it rest ih => intro i; simp [runWindow, ih]

/-- A boolean filter and its complement partition a list's length. -/
theorem filter_split_length {α : Type} (p : α → Bool) (l : List α) :
    (l.filter p).length + (l.filter (fun a => !p a)).length = l.length := by
  induction l with
  | nil => rfl
  | cons a l ih => by_cases h : p a <;> simp [List.filter, h] <;> omega

/-- The hardened batch loop records one outcome per input item. -/
theorem batchLoop_counts (runItem : Nat → Item → List Ev × Outcome) (c δ : Nat) (hc : 1 ≤ c) :
    ∀ fuel (items : List Item) (i : Nat), items.length ≤ fuel →
      (batchLoop runItem c δ fuel i items).2.1.length +
        (batchLoop runItem c δ fuel i items).2.2.length = items.length := by
  intro fuel
  induction fuel with
  | zero =>
    intro items i hlen
    have : items = [] := List.length_eq_zero.mp (Nat.le_zero.mp hlen)
    subst this; rfl
  | succ f ih =>
    intro items i hlen
    cases items with
    | nil => rfl
    | cons it rest0 =>
      have hsplit := filter_split_length Outcome.isSuccess
        ((runWindow runItem i ((it :: rest0).take c)).map Prod.snd)
      have hmaplen : ((runWindow runItem i ((it :: rest0).take c)).map Prod.snd).length =
          ((it :: rest0).take c).length := by
        rw [List.length_map, runWindow_length]
      have hrest : ((it :: rest0).drop c).length ≤ f := by
        rw [List.length_drop]
        simp only [List.length_cons] at hlen ⊢
        omega
      have hnext := ih ((it :: rest0).drop c) (i + ((it :: rest0).take c).length) hrest
      have htake : ((it :: rest0).take c).length = min c (it :: rest0).length :=
        List.length_take c (it :: rest0)
      have hdrop : ((it :: rest0).drop c).length = (it :: rest0).length - c :=
        List.length_drop c (it :: rest0)
      simp only [batchLoop, List.length_append]
      omega

/-- The baseline batch loop is the hardened one with a zero delay. -/
theorem batchLoop0_eq (runItem : Nat → Item → List Ev × Outcome) (c : Nat) :
    ∀ fuel (items : List Item) (i : Nat),
      Part0.batchLoop0 runItem c fuel i items = batchLoop runItem c 0 fuel i items := by
  intro fuel
  induction fuel with
  | zero => intro items i; cases items <;> rfl
  | succ f ih =>
    intro items i
    cases items with
    | nil => rfl
    | cons it rest0 =>
      simp only [Part0.batchLoop0, batchLoop, ih]
      simp

/-- The click-paced loop records one outcome per input item. -/
theorem withClickLoop_counts (runItem : Nat → Item → List Ev × Outcome)
    (pauseAfterFirst : Bool) (total : Nat) :
    ∀ (items : List Item) (i : Nat),
      (Part0.withClickLoop runItem pauseAfterFirst total i items).2.1.length +
        (Part0.withClickLoop runItem pauseAfterFirst total i items).2.2.length = items.length := by
  intro items
  induction items with
  | nil => intro i; rfl
  | cons it rest ih =>
    intro i
    have := ih (i + 1)
    simp only [Part0.withClickLoop, List.length_append]
    by_cases h : (runItem i it).2.isSuccess <;> simp [h] <;> omega

/-- C1: every batch entry point — the hardened `downloadMultiplePDFs`, the
baseline `downloadMultiplePDFs`, and `downloadMultiplePDFsWithClick` —
yields exactly one outcome per request: the successes and failures lists
together have exactly the input's length, for every environment, token
supply, fuel, and valid configuration (the windowed loops need
`concurrent ≥ 1`; with `concurrent = 0` the source loops forever). -/
theorem c1_exactly_one_outcome :
    (∀ (env : Nat → Nat → Url → ServerBehavior) (toks : Nat → Nat → Nat → Token)
       (fuel : Nat) (opts : Downloader.MultiOptions) (items : List Item),
       1 ≤ opts.concurrent →
       (Downloader.downloadMultiplePDFs env toks fuel opts items).2.1.length +
         (Downloader.downloadMultiplePDFs env toks fuel opts items).2.2.length = items.length) ∧
    (∀ (env : Nat → Nat → Url → ServerBehavior) (fuel concurrent retryCount : Nat)
       (items : List Item), 1 ≤ concurrent →
       (Part0.downloadMultiplePDFs env fuel concurrent retryCount items).2.1.length +
         (Part0.downloadMultiplePDFs env fuel concurrent retryCount items).2.2.length =
           items.length) ∧
    (∀ (env : Nat → Nat → Url → ServerBehavior) (fuel retryCount : Nat)
       (pauseAfterFirst : Bool) (items : List Item),
       (Part0.downloadMultiplePDFsWithClick env fuel retryCount pauseAfterFirst items).2.1.length +
         (Part0.downloadMultiplePDFsWithClick env fuel retryCount pauseAfterFirst items).2.2.length =
           items.length) := by
  refine ⟨?_, ?_, ?_⟩
  · intro env toks fuel opts items hc
    exact batchLoop_counts _ opts.concurrent opts.delayBetweenBatches hc
      items.length items 0 (Nat.le_refl _)
  · intro env fuel concurrent retryCount items hc
    rw [show Part0.downloadMultiplePDFs env fuel concurrent retryCount items =
        Part0.batchLoop0 (fun i it => Part0.itemRun (env i) fuel retryCount it)
          concurrent items.length 0 items from rfl,
      batchLoop0_eq]
    exact batchLoop_counts _ concurrent 0 hc items.length items 0 (Nat.le_refl _)
  · intro env fuel retryCount pauseAfterFirst items
    exact withClickLoop_counts _ pauseAfterFirst items.length items 0

/-- Witness for C1: five mixed requests against an always-failing server,
window size 2, one retry. -/
theorem c1_exactly_one_outcome_witness :
    ((Downloader.downloadMultiplePDFs (fun _ _ => wEnvExpire) (fun _ _ _ => wTok) 1
        ⟨2, 1, 5⟩ wItems).2.1.length +
      (Downloader.downloadMultiplePDFs (fun _ _ => wEnvExpire) (fun _ _ _ => wTok) 1
        ⟨2, 1, 5⟩ wItems).2.2.length = wItems.length) ∧
    ((Part0.downloadMultiplePDFs (fun _ _ => wEnvExpire) 1 2 1 wItems).2.1.length +
      (Part0.downloadMultiplePDFs (fun _ _ => wEnvExpire) 1 2 1 wItems).2.2.length =
        wItems.length) ∧
    ((Part0.downloadMultiplePDFsWithClick (fun _ _ => wEnvExpire) 1 1 true wItems).2.1.length +
      (Part0.downloadMultiplePDFsWithClick (fun _ _ => wEnvExpire) 1 1 true wItems).2.2.length =
        wItems.length) :=
  ⟨c1_exactly_one_outcome.1 (fun _ _ => wEnvExpire) (fun _ _ _ => wTok) 1 ⟨2, 1, 5⟩ wItems
      (by decide),
    c1_exactly_one_outcome.2.1 (fun _ _ => wEnvExpire) 1 2 1 wItems (by decide),
    c1_exactly_one_outcome.2.2 (fun _ _ => wEnvExpire) 1 1 true wItems⟩

/-- Lemma: `windowsOf` on the empty list is empty for any fuel. -/
theorem windowsOf_nil {α : Type} (c fuel : Nat) : windowsOf c fuel ([] : List α) = [] := by
  cases fuel <;> rfl

/-- Lemma: `windowsOf` does not depend on the fuel, once sufficient. -/
theorem windowsOf_fuel {α : Type} (c : Nat) (hc : 1 ≤ c) :
    ∀ fuel1 fuel2 (items : List α), items.length ≤ fuel1 → items.length ≤ fuel2 →
      windowsOf c fuel1 items = windowsOf c fuel2 items := by
  intro fuel1
  induction fuel1 with
  | zero =>
    intro fuel2 items h1 _
    have : items = [] := List.length_eq_zero.mp (Nat.le_zero.mp h1)
    subst this
    rw [windowsOf_nil, windowsOf_nil]
  | succ f ih =>
    intro fuel2 items h1 h2
    cases items with
    | nil => rw [windowsOf_nil, windowsOf_nil]
    | cons x rest0 =>
      cases fuel2 with
      | zero => simp at h2
      | succ g =>
        simp only [windowsOf]
        congr 1
        apply ih
        · rw [List.length_drop]; simp only [List.length_cons] at h1 ⊢; omega
        · rw [List.length_drop]; simp only [List.length_cons] at h2 ⊢; omega

/-- The windows flatten back to the input list. -/
theorem windowsOf_flatten {α : Type} (c : Nat) (hc : 1 ≤ c) :
    ∀ fuel (items : List α), items.length ≤ fuel →
      (windowsOf c fuel items).flatten = items := by
  intro fuel
  induction fuel with
  | zero =>
    intro items h
    have : items = [] := List.length_eq_zero.mp (Nat.le_zero.mp h)
    subst this; rfl
  | succ f ih =>
    intro items h
    cases items with
    | nil => rfl
    | cons x rest0 =>
      simp only [windowsOf, List.flatten_cons]
      rw [ih _ (by rw [List.length_drop]; simp only [List.length_cons] at h ⊢; omega)]
      exact List.take_append_drop c (x :: rest0)

/-- Every window is nonempty and no longer than the concurrency level. -/
theorem windowsOf_mem_length {α : Type} (c : Nat) (hc : 1 ≤ c) :
    ∀ fuel (items : List α), items.length ≤ fuel →
      ∀ w ∈ windowsOf c fuel items, 1 ≤ w.length ∧ w.length ≤ c := by
  intro fuel
  induction fuel with
  | zero =>
    intro items h w hw
    have : items = [] := List.length_eq_zero.mp (Nat.le_zero.mp h)
    subst this
    simp [windowsOf_nil] at hw
  | succ f ih =>
    intro items h w hw
    cases items with
    | nil => simp [windowsOf_nil] at hw
    | cons x rest0 =>
      simp only [windowsOf, List.mem_cons] at hw
      rcases hw with hw | hw
      · subst hw
        constructor
        · rw [List.length_take]; simp only [List.length_cons]; omega
        · rw [List.length_take]; omega
      · exact ih _ (by rw [List.length_drop]; simp only [List.length_cons] at h ⊢; omega) w hw

/-- There are exactly `⌈N / c⌉` windows. -/
theorem windowsOf_count {α : Type} (c : Nat) (hc : 1 ≤ c) :
    ∀ fuel (items : List α), items.length ≤ fuel →
      (windowsOf c fuel items).length = (items.length + c - 1) / c := by
  intro fuel
  induction fuel with
  | zero =>
    intro items h
    have : items = [] := List.length_eq_zero.mp (Nat.le_zero.mp h)
    subst this
    rw [windowsOf_nil]
    simp only [List.length_nil]
    rw [Nat.div_eq_of_lt (by omega : 0 + c - 1 < c)]
  | succ f ih =>
    intro items h
    cases items with
    | nil =>
      rw [windowsOf_nil]
      simp only [List.length_nil]
      rw [Nat.div_eq_of_lt (by omega : 0 + c - 1 < c)]
    | cons x rest0 =>
      simp only [windowsOf, List.length_cons]
      rw [ih _ (by rw [List.length_drop]; simp only [List.length_cons] at h ⊢; omega)]
      rw [List.length_drop]
      simp only [List.length_cons]
      have hL : 1 ≤ rest0.length + 1 := by omega
      by_cases hcase : rest0.length + 1 ≤ c
      · have hz : rest0.length + 1 - c = 0 := by omega
        rw [hz]
        rw [Nat.div_eq_of_lt (by omega : 0 + c - 1 < c)]
        have he : rest0.length + 1 + c - 1 = (rest0.length + 1 - 1) + c := by omega
        rw [he, Nat.add_div_right _ (by omega), Nat.div_eq_of_lt (by omega)]
      · have he1 : rest0.length + 1 - c + c - 1 = (rest0.length + 1 - c - 1) + c := by omega
        have he2 : rest0.length + 1 + c - 1 = (rest0.length + 1 - 1) + c := by omega
        rw [he1, he2, Nat.add_div_right _ (by omega), Nat.add_div_right _ (by omega)]
        have he3 : rest0.length + 1 - c - 1 + c = rest0.length + 1 - 1 := by omega
        rw [← he3]
        rw [Nat.add_div_right _ (by omega)]

/-- Nonemptiness of the window list mirrors that of the input. -/
theorem windowsOf_isEmpty {α : Type} (c : Nat) :
    ∀ fuel (items : List α), items.length ≤ fuel →
      (windowsOf c fuel items).isEmpty = items.isEmpty := by
  intro fuel items h
  cases items with
  | nil => rw [windowsOf_nil]; rfl
  | cons x rest0 =>
    cases fuel with
    | zero => simp at h
    | succ f => rfl

/-- The hardened batch loop is exactly the window-by-window run over the
window partition. -/
theorem batchLoop_eq_windowsRun (runItem : Nat → Item → List Ev × Outcome) (c δ : Nat)
    (hc : 1 ≤ c) :
    ∀ fuel (items : List Item) (i : Nat), items.length ≤ fuel →
      batchLoop runItem c δ fuel i items = windowsRun runItem δ i (windowsOf c fuel items) := by
  intro fuel
  induction fuel with
  | zero =>
    intro items i h
    have : items = [] := List.length_eq_zero.mp (Nat.le_zero.mp h)
    subst this; rfl
  | succ f ih =>
    intro items i h
    cases items with
    | nil => rfl
    | cons x rest0 =>
      have hrest : ((x :: rest0).drop c).length ≤ f := by
        rw [List.length_drop]; simp only [List.length_cons] at h ⊢; omega
      simp only [windowsOf, batchLoop, windowsRun]
      rw [ih _ _ hrest, windowsOf_isEmpty c f _ hrest]

/-- C8: in bounded-concurrency mode with `c ≥ 1`, both variants process the
ordered input as exactly `⌈N / c⌉` windows of between 1 and `c` items that
flatten back to the input (so at most `c` fetches are ever live at once in
the cooperative model, where in-flight fetches all belong to the current
window), settling every item of a window — no failure cancels a sibling,
each item yields its record — before any later window runs, and (hardened
variant) the configured inter-window delay is inserted only between
windows, never after the last (the baseline variant inserts none, modelled
by delay 0). -/
theorem c8_window_scheduling :
    (∀ (env : Nat → Nat → Url → ServerBehavior) (toks : Nat → Nat → Nat → Token)
       (fuel : Nat) (opts : Downloader.MultiOptions) (items : List Item),
       1 ≤ opts.concurrent →
       Downloader.downloadMultiplePDFs env toks fuel opts items =
         windowsRun (fun i it => Downloader.itemRun (env i) (toks i) fuel opts.retryCount it)
           opts.delayBetweenBatches 0 (windowsOf opts.concurrent items.length items) ∧
       (windowsOf opts.concurrent items.length items).length =
         (items.length + opts.concurrent - 1) / opts.concurrent ∧
       (∀ w ∈ windowsOf opts.concurrent items.length items,
         1 ≤ w.length ∧ w.length ≤ opts.concurrent) ∧
       (windowsOf opts.concurrent items.length items).flatten = items) ∧
    (∀ (env : Nat → Nat → Url → ServerBehavior) (fuel c retryCount : Nat) (items : List Item),
       1 ≤ c →
       Part0.downloadMultiplePDFs env fuel c retryCount items =
         windowsRun (fun i it => Part0.itemRun (env i) fuel retryCount it) 0 0
           (windowsOf c items.length items)) := by
  constructor
  · intro env toks fuel opts items hc
    refine ⟨?_, windowsOf_count opts.concurrent hc items.length items (Nat.le_refl _),
      windowsOf_mem_length opts.concurrent hc items.length items (Nat.le_refl _),
      windowsOf_flatten opts.concurrent hc items.length items (Nat.le_refl _)⟩
    exact batchLoop_eq_windowsRun _ opts.concurrent opts.delayBetweenBatches hc
      items.length items 0 (Nat.le_refl _)
  · intro env fuel c retryCount items hc
    rw [show Part0.downloadMultiplePDFs env fuel c retryCount items =
        Part0.batchLoop0 (fun i it => Part0.itemRun (env i) fuel retryCount it)
          c items.length 0 items from rfl,
      batchLoop0_eq]
    exact batchLoop_eq_windowsRun _ c 0 hc items.length items 0 (Nat.le_refl _)

/-- Witness for C8: five items with window size 3 make exactly two windows
of sizes 3 and 2. -/
theorem c8_window_scheduling_witness :
    (Downloader.downloadMultiplePDFs (fun _ _ => wEnvExpire) (fun _ _ _ => wTok) 1
        ⟨3, 0, 7⟩ wItems =
      windowsRun (fun i it => Downloader.itemRun ((fun _ _ => wEnvExpire) i)
        ((fun _ _ _ => wTok) i) 1 (0 : Nat) it) 7 0 (windowsOf 3 wItems.length wItems) ∧
     (windowsOf 3 wItems.length wItems).length = (wItems.length + 3 - 1) / 3 ∧
     (∀ w ∈ windowsOf 3 wItems.length wItems, 1 ≤ w.length ∧ w.length ≤ 3) ∧
     (windowsOf 3 wItems.length wItems).flatten = wItems) ∧
    (Part0.downloadMultiplePDFs (fun _ _ => wEnvExpire) 1 2 1 wItems =
      windowsRun (fun i it => Part0.itemRun ((fun _ _ => wEnvExpire) i) 1 1 it) 0 0
        (windowsOf 2 wItems.length wItems)) :=
  ⟨c8_window_scheduling.1 (fun _ _ => wEnvExpire) (fun _ _ _ => wTok) 1 ⟨3, 0, 7⟩ wItems
      (by decide),
    c8_window_scheduling.2 (fun _ _ => wEnvExpire) 1 2 1 wItems (by decide)⟩

/-- Lemma: `clickCount` distributes over append. -/
theorem clickCount_append (a b : List Ev) : clickCount (a ++ b) = clickCount a + clickCount b := by
  simp [clickCount]

/-- The baseline response tail suspends for no click. -/
theorem part0_finishResponse_no_click (u : Url) (s : String) (r : Response) :
    clickCount (Part0.finishResponse u s r).1 = 0 := by
  simp only [Part0.finishResponse]
  split
  · rfl
  · split <;> rfl

/-- The baseline fetch suspends for no click at any fuel. -/
theorem part0_downloadPDF_no_click (env : Url → ServerBehavior) :
    ∀ fuel (u : Url) (n : Option String), clickCount (Part0.downloadPDF env fuel u n).1 = 0 := by
  intro fuel
  induction fuel with
  | zero =>
    intro u n
    rw [Part0.downloadPDF.eq_def]
    cases henv : env u with
    | connectionError msg => simp only [henv]; rfl
    | expire => simp only [henv]; rfl
    | respond r =>
      simp only [henv]
      cases hloc : r.location with
      | none => exact part0_finishResponse_no_click u _ r
      | some loc =>
        by_cases h : 300 ≤ r.statusCode ∧ r.statusCode < 400
        · simp only [if_pos h]; rfl
        · simp only [if_neg h]; exact part0_finishResponse_no_click u _ r
  | succ f ih =>
    intro u n
    rw [Part0.downloadPDF.eq_def]
    cases henv : env u with
    | connectionError msg => simp only [henv]; rfl
    | expire => simp only [henv]; rfl
    | respond r =>
      simp only [henv]
      cases hloc : r.location with
      | none => exact part0_finishResponse_no_click u _ r
      | some loc =>
        by_cases h : 300 ≤ r.statusCode ∧ r.statusCode < 400
        · simp only [if_pos h]
          have hrec := ih loc (some (Part0.resolvedName u n))
          simp only [clickCount, List.countP_cons] at hrec ⊢
          simp [hrec]
        · simp only [if_neg h]; exact part0_finishResponse_no_click u _ r

/-- The retry loop adds only delays between click-free attempts. -/
theorem runAttemptsAux_no_click {α : Type} (attemptF : Nat → List Ev × Except DlError α)
    (hF : ∀ a, clickCount (attemptF a).1 = 0) :
    ∀ left a, clickCount (runAttemptsAux attemptF a left).1 = 0 := by
  intro left
  induction left with
  | zero => intro a; exact hF a
  | succ l ih =>
    intro a
    rw [show runAttemptsAux attemptF a (l + 1) =
        (match attemptF a with
         | (evs, .ok res) => (evs, .ok res)
         | (evs, .error _) =>
           let next := runAttemptsAux attemptF (a + 1) l
           (evs ++ Ev.delayMs (1000 * (a + 1)) :: next.1, next.2)) from rfl]
    have hFa := hF a
    cases hA : attemptF a with
    | mk evs res =>
      rw [hA] at hFa
      cases res with
      | ok vr => exact hFa
      | error e =>
        simp only [clickCount, List.countP_append, List.countP_cons] at hFa ⊢
        have := ih (a + 1)
        simp only [clickCount] at this
        simp [hFa, this]

/-- A baseline scheduled item suspends for no click on its own. -/
theorem part0_itemRun_no_click (env : Nat → Url → ServerBehavior) (fuel rc : Nat) (item : Item) :
    clickCount (Part0.itemRun env fuel rc item).1 = 0 := by
  have h0 : clickCount
      (runAttempts (fun a => Part0.downloadPDF (env a) fuel item.url item.name) rc).1 = 0 :=
    runAttemptsAux_no_click _ (fun a => part0_downloadPDF_no_click (env a) fuel item.url item.name)
      rc 0
  simp only [Part0.itemRun]
  cases hA : runAttempts (fun a => Part0.downloadPDF (env a) fuel item.url item.name) rc with
  | mk evs res =>
    rw [hA] at h0
    cases res <;> simpa using h0

/-- One trace per item. -/
theorem itemTraces_length (runItem : Nat → Item → List Ev × Outcome) :
    ∀ (items : List Item) (i : Nat), (itemTraces runItem i items).length = items.length := by
  intro items
  induction items with
  | nil => intro i; rfl
  | cons it rest ih => intro i; simp [itemTraces, ih]

/-- Item traces of the baseline pipeline are click-free. -/
theorem itemTraces_no_click (env : Nat → Nat → Url → ServerBehavior) (fuel rc : Nat) :
    ∀ (items : List Item) (i : Nat),
      ∀ tr ∈ itemTraces (fun j it => Part0.itemRun (env j) fuel rc it) i items,
        clickCount tr = 0 := by
  intro items
  induction items with
  | nil => intro i tr htr; simp [itemTraces] at htr
  | cons it rest ih =>
    intro i tr htr
    simp only [itemTraces, List.mem_cons] at htr
    rcases htr with htr | htr
    · subst htr; exact part0_itemRun_no_click (env i) fuel rc it
    · exact ih (i + 1) tr htr

/-- Interposed clicks number one fewer than the (click-free) item traces. -/
theorem clickCount_interposeClicks :
    ∀ ts : List (List Ev), (∀ t ∈ ts, clickCount t = 0) →
      clickCount (interposeClicks ts) = ts.length - 1 := by
  intro ts
  induction ts with
  | nil => intro _; rfl
  | cons t rest ih =>
    intro h
    cases rest with
    | nil => simpa [interposeClicks] using h t (by simp)
    | cons t2 more =>
      have ht := h t (by simp)
      have hrest := ih (fun x hx => h x (by simp [hx]))
      rw [show interposeClicks (t :: t2 :: more) =
          t ++ Ev.waitClick :: interposeClicks (t2 :: more) from rfl]
      rw [clickCount_append, ht]
      have : clickCount (Ev.waitClick :: interposeClicks (t2 :: more)) =
          1 + clickCount (interposeClicks (t2 :: more)) := by
        simp [clickCount, List.countP_cons]
        omega
      rw [this, hrest]
      simp only [List.length_cons]
      omega

/-- The click-paced loop's trace is the item traces with one click after
each item except the last. -/
theorem withClickLoop_trace (runItem : Nat → Item → List Ev × Outcome)
    (pause : Bool) (total : Nat) :
    ∀ (items : List Item) (i : Nat), i + items.length = total →
      (Part0.withClickLoop runItem pause total i items).1 =
        interposeClicks (itemTraces runItem i items) := by
  intro items
  induction items with
  | nil => intro i _; rfl
  | cons it rest ih =>
    intro i htot
    simp only [List.length_cons] at htot
    cases rest with
    | nil =>
      simp only [List.length_nil] at htot
      have h1 : ¬(pause = true ∧ i = 0 ∧ 1 < total) := by
        rintro ⟨_, rfl, hlt⟩
        omega
      have h2 : ¬(i < total - 1) := by omega
      simp [Part0.withClickLoop, h1, h2, itemTraces, interposeClicks]
    | cons it2 rest2 =>
      simp only [List.length_cons] at htot
      have hclick : (if pause = true ∧ i = 0 ∧ 1 < total then [Ev.waitClick]
          else if i < total - 1 then [Ev.waitClick] else []) = [Ev.waitClick] := by
        by_cases hp : pause = true ∧ i = 0 ∧ 1 < total
        · simp [hp]
        · have hlt : i < total - 1 := by omega
          simp [hp, hlt]
      have hnext := ih (i + 1) (by simp only [List.length_cons]; omega)
      rw [show (Part0.withClickLoop runItem pause total i (it :: it2 :: rest2)).1 =
          (runItem i it).1 ++
            (if pause = true ∧ i = 0 ∧ 1 < total then [Ev.waitClick]
             else if i < total - 1 then [Ev.waitClick] else []) ++
            (Part0.withClickLoop runItem pause total (i + 1) (it2 :: rest2)).1 from rfl,
        hclick, hnext]
      rw [show itemTraces runItem i (it :: it2 :: rest2) =
          (runItem i it).1 :: (runItem (i + 1) it2).1 :: itemTraces runItem (i + 2) rest2 from rfl]
      rw [show interposeClicks ((runItem i it).1 :: (runItem (i + 1) it2).1 ::
            itemTraces runItem (i + 2) rest2) =
          (runItem i it).1 ++ Ev.waitClick ::
            interposeClicks ((runItem (i + 1) it2).1 :: itemTraces runItem (i + 2) rest2) from rfl]
      rw [show itemTraces runItem (i + 1) (it2 :: rest2) =
          (runItem (i + 1) it2).1 :: itemTraces runItem (i + 2) rest2 from rfl]
      simp

/-- C9: for every request list, retry level and either value of
`pauseAfterFirst`, the click-paced sequential pipeline's trace is the item
traces in input order with exactly one continuation suspension after each
item's outcome except the last item's: `N - 1` suspensions for `N ≥ 1`
items (and none for a single item or the empty list). -/
theorem c9_click_pacing (env : Nat → Nat → Url → ServerBehavior) (fuel retryCount : Nat)
    (pauseAfterFirst : Bool) (items : List Item) :
    (Part0.downloadMultiplePDFsWithClick env fuel retryCount pauseAfterFirst items).1 =
      interposeClicks (itemTraces (fun i it => Part0.itemRun (env i) fuel retryCount it) 0 items) ∧
    clickCount (Part0.downloadMultiplePDFsWithClick env fuel retryCount pauseAfterFirst items).1 =
      items.length - 1 := by
  have htr := withClickLoop_trace (fun i it => Part0.itemRun (env i) fuel retryCount it)
    pauseAfterFirst items.length items 0 (by omega)
  refine ⟨htr, ?_⟩
  rw [show (Part0.downloadMultiplePDFsWithClick env fuel retryCount pauseAfterFirst items).1 =
      (Part0.withClickLoop (fun i it => Part0.itemRun (env i) fuel retryCount it)
        pauseAfterFirst items.length 0 items).1 from rfl,
    htr, clickCount_interposeClicks _ (itemTraces_no_click env fuel retryCount items 0),
    itemTraces_length]

/-- C10: on the empty request list all three batch entry points return
empty successes and failures with an empty event trace: no fetch attempt,
no backoff or inter-window delay, no file activity and no continuation
suspension, for every environment and configuration. -/
theorem c10_empty_batch (env1 : Nat → Nat → Url → ServerBehavior)
    (toks : Nat → Nat → Nat → Token) (fuel1 : Nat) (opts : Downloader.MultiOptions)
    (env2 : Nat → Nat → Url → ServerBehavior) (fuel2 concurrent retryCount : Nat)
    (env3 : Nat → Nat → Url → ServerBehavior) (fuel3 rc3 : Nat) (pauseAfterFirst : Bool) :
    Downloader.downloadMultiplePDFs env1 toks fuel1 opts [] = ([], [], []) ∧
    Part0.downloadMultiplePDFs env2 fuel2 concurrent retryCount [] = ([], [], []) ∧
    Part0.downloadMultiplePDFsWithClick env3 fuel3 rc3 pauseAfterFirst [] = ([], [], []) :=
  ⟨rfl, rfl, rfl⟩

/-- Witness for C4: a one-hop 302 chain from `wUrlA` to `wUrlB`. -/
theorem c4_redirect_chain_witness :
    validHttpUrl wUrlA = true ∧ chainTo wEnvChain wPdfBody wUrlA [wUrlB] = true ∧
    (∃ evs, Downloader.downloadPDF wEnvChain wToks 1 wUrlA none =
        (evs, .ok { filePath := generateSafeFilename (Downloader.derivedName wUrlA none) (wToks 1),
                    body := wPdfBody, validated := validatePDFBytes wPdfBody }) ∧
      Ev.fileWrite (generateSafeFilename (Downloader.derivedName wUrlA none) (wToks 1)) wPdfBody ∈ evs) :=
  ⟨by decide, by decide,
    c4_redirect_chain wEnvChain wPdfBody [wUrlB] wToks 1 wUrlA none (by decide) (by decide) (by decide)⟩

end Downloads

